import Mathlib

/-!
Verification of the session-discovery and multi-file signal-reconciliation
core of the OpenPSG cpap-downloader repository.

The TypeScript source is shallowly embedded as follows:
* `Date` values are their epoch milliseconds, as `Int` (`Date.getTime()`).
* file durations and record durations are `Int` seconds, as in the source;
  the division `(end - start) / 1000` performed when a file is inserted in
  the interval index is exact on the millisecond data handled here and is
  modelled by truncated integer division.
* annotation onsets are rational numbers of seconds (`Rat`), since the
  retiming arithmetic `(fileStart - windowStart) / 1000` is real division.
* JavaScript `%` on integers truncates toward zero and is `Int.tmod`;
  `Math.floor` / `Math.ceil` on rationals are `Int.floor` / `Int.ceil`.
* the external EDF container codec (edf-ts) is out of scope; a decoded file
  (header, per-channel sample arrays, annotations, last record timestamp)
  is an input of the reconciliation model.
-/

/-- JavaScript `Array.prototype.slice(a, b)`: negative indices count from the
end, both indices are clamped to `[0, length]`. -/
def jsSlice {α : Type} (l : List α) (a b : Int) : List α :=
  let len : Int := l.length
  let lo : Int := if a < 0 then max (len + a) 0 else min a len
  let hi : Int := if b < 0 then max (len + b) 0 else min b len
  (l.drop lo.toNat).take (hi - lo).toNat

/-- Maximum of a list of integers (`Math.max(...xs)`); the source only applies
it to non-empty lists, the `[]` case is irrelevant. -/
def intMax : List Int → Int
  | [] => 0
  | x :: xs => xs.foldl max x

/-- Minimum of a list of integers (`Math.min(...xs)`). -/
def intMin : List Int → Int
  | [] => 0
  | x :: xs => xs.foldl min x

/-- Does the character list start with the given pattern? -/
def leadsWith : List Char → List Char → Bool
  | [], _ => true
  | _ :: _, [] => false
  | p :: ps, c :: cs => p = c && leadsWith ps cs

/-- Does the character list contain the pattern as a contiguous run? -/
def containsRun : List Char → List Char → Bool
  | pat, [] => leadsWith pat []
  | pat, c :: cs => leadsWith pat (c :: cs) || containsRun pat cs

/-- JavaScript `String.prototype.includes`. -/
def strIncludes (s pat : String) : Bool :=
  containsRun pat.data s.data

/-- ASCII lowercasing of one character. The labels this repository lowercases
are ASCII, so this models `String.prototype.toLowerCase`. -/
def lowerChar (c : Char) : Char :=
  if 65 ≤ c.toNat ∧ c.toNat ≤ 90 then Char.ofNat (c.toNat + 32) else c

/-- JavaScript `toLowerCase` on the ASCII labels of this repository. -/
def lowerStr (s : String) : String :=
  String.mk (s.data.map lowerChar)

/-- EDF channel descriptor (edf-ts `EDFSignal`). Physical/digital bounds are
copied around, never computed with, so integers suffice for the model. -/
structure EDFSignal where
  label : String
  transducerType : String
  physicalDimension : String
  physicalMin : Int
  physicalMax : Int
  digitalMin : Int
  digitalMax : Int
  prefiltering : String
  samplesPerRecord : Int
  reserved : Option String
deriving DecidableEq, Repr

/-- EDF annotation (edf-ts `EDFAnnotation`): onset seconds from file start,
optional duration, text. -/
structure EDFAnnot where
  onset : Rat
  duration : Option Rat
  description : String
deriving DecidableEq, Repr

/-- The header fields of an EDF file that the core reads or writes.
`startTime` is epoch milliseconds, `recordDuration` seconds. -/
structure EDFHeaderR where
  startTime : Int
  dataRecords : Int
  recordDuration : Int
  signalCount : Int
  signals : List EDFSignal
  reserved : String
deriving DecidableEq, Repr

/-- `EDFFile` of Loader.ts: header, per-channel physical values, annotations. -/
structure EDFFileR where
  header : EDFHeaderR
  values : List (List Int)
  annots : List EDFAnnot
deriving DecidableEq, Repr

/-- `EDFFileWithDuration` of Utils.ts: an EDF file plus its duration in
seconds. -/
structure EDFFileWithDuration extends EDFFileR where
  duration : Int
deriving DecidableEq, Repr

/-- A therapy session's time bounds (Loader.ts `Session`; the path → handle
map is not needed by the reconciliation model). -/
structure SessionR where
  startMs : Int
  endMs : Int
deriving DecidableEq, Repr

def emptyFileR : EDFFileR :=
  { header := { startTime := 0, dataRecords := 0, recordDuration := 0,
                signalCount := 0, signals := [], reserved := "" },
    values := [], annots := [] }

/-- Utils.ts `canonicalizeLabels`, inner loop for one signal: scan the synonym
table in order; on the first entry whose alias list contains the label
(exact, case-sensitive), replace the label by the canonical name. -/
def canonLabel (syns : List (String × List String)) (s : EDFSignal) : EDFSignal :=
  match syns with
  | [] => s
  | (canonical, aliases) :: rest =>
    if aliases.any (fun al => al = s.label) then { s with label := canonical }
    else canonLabel rest s

/-- Utils.ts `canonicalizeLabels`. The JS `Map` iterates in insertion order,
so the synonym table is an association list. -/
def canonicalizeLabels (signals : List EDFSignal)
    (syns : List (String × List String)) : List EDFSignal :=
  signals.map (canonLabel syns)

/-- Utils.ts `filterSignals`, for the disallowed-labels filter used by the
repository: drop each signal (and its value array) whose lowercased label is
in the lowercased disallowed set. -/
def filterSignals (signals : List EDFSignal) (values : List (List Int))
    (disallowed : List String) : List EDFSignal × List (List Int) :=
  let dis := disallowed.map lowerStr
  let kept := (signals.zip values).filter fun sv => ¬ dis.contains (lowerStr sv.1.label)
  (kept.map (·.1), kept.map (·.2))

/-- Utils.ts `findCommonTimeRange`: window `start` is the maximum of the file
start times, `end` is the minimum of the file end times truncated down to a
record boundary measured from `start`. JS `%` is `Int.tmod`. Returns
`(startMs, endMs)`. -/
def findCommonTimeRange (files : List EDFFileWithDuration)
    (recordDuration : Int) : Int × Int :=
  let startTimes := files.map fun f => f.header.startTime
  let endTimes := files.map fun f => f.header.startTime + f.duration * 1000
  let start := intMax startTimes
  let rawEnd := intMin endTimes
  (start, rawEnd - (rawEnd - start).tmod (recordDuration * 1000))

/-- One entry of Utils.ts `labelToSignals`: a signal together with its index
in its file's signal table and its file's index in the candidate list. -/
structure SigInfo where
  signal : EDFSignal
  index : Nat
  fileIndex : Nat
deriving DecidableEq, Repr

/-- All (signal, signal index, file index) triples of the candidate files in
traversal order: files in list order, signals in table order (mergeSignals
step 1). -/
def allSigInfos (files : List EDFFileR) : List SigInfo :=
  (files.enum.map fun fi =>
    fi.2.header.signals.enum.map fun si =>
      { signal := si.2, index := si.1, fileIndex := fi.1 }).flatten

/-- First-occurrence deduplication with a seen-set accumulator. -/
def dedupKeysAux (seen : List String) : List String → List String
  | [] => []
  | x :: xs =>
    if x ∈ seen then dedupKeysAux seen xs
    else x :: dedupKeysAux (x :: seen) xs

/-- First-occurrence deduplication: the key set of a JS `Map` in insertion
order. -/
def dedupKeys (l : List String) : List String :=
  dedupKeysAux [] l

/-- The distinct labels of the candidate files, in first-occurrence order
(the key order of `labelToSignals`). -/
def labelKeys (files : List EDFFileR) : List String :=
  dedupKeys ((allSigInfos files).map fun info => info.signal.label)

/-- The group of `labelToSignals` entries for one label, in traversal
order. -/
def groupFor (files : List EDFFileR) (lab : String) : List SigInfo :=
  (allSigInfos files).filter fun info => info.signal.label = lab

/-- Stable descending insertion by `samplesPerRecord`: an element is placed
before the first strictly smaller one, so ties keep their original order.
This models the (stable) JS sort with comparator
`(a, b) => b.signal.samplesPerRecord - a.signal.samplesPerRecord`. -/
def insertDesc (x : SigInfo) : List SigInfo → List SigInfo
  | [] => [x]
  | y :: ys =>
    if y.signal.samplesPerRecord ≤ x.signal.samplesPerRecord then x :: y :: ys
    else y :: insertDesc x ys

/-- Stable sort by descending `samplesPerRecord` (mergeSignals step 2). -/
def sortBySprDesc (l : List SigInfo) : List SigInfo :=
  l.foldr insertDesc []

/-- The entry mergeSignals picks for one label: the head of the group sorted
stably by descending `samplesPerRecord` (`signalInfos[0]` after the sort). -/
def pickFor (files : List EDFFileR) (lab : String) : Option SigInfo :=
  (sortBySprDesc (groupFor files lab)).head?

/-- mergeSignals sample-range extraction for the selected channel (Utils.ts
lines 129-142): `samplesPerMs = samplesPerRecord / recordDurationMs`,
`startSample = floor((start - fileStart) * samplesPerMs)`,
`endSample = ceil((end - fileStart) * samplesPerMs)`, then
`values.slice(startSample, endSample)`. -/
def extractSamples (startT endT : Int) (file : EDFFileR) (sig : EDFSignal)
    (vals : List Int) : List Int :=
  let fileStart := file.header.startTime
  let recordDurationMs := file.header.recordDuration * 1000
  let samplesPerMs : Rat := (sig.samplesPerRecord : Rat) / (recordDurationMs : Rat)
  let startSample : Int := ⌊((startT - fileStart : Int) : Rat) * samplesPerMs⌋
  let endSample : Int := ⌈((endT - fileStart : Int) : Rat) * samplesPerMs⌉
  jsSlice vals startSample endSample

/-- Is the annotation's absolute time within the window (inclusive)?
`file.header.startTime.getTime() + annotation.onset * 1000` compared against
the window bounds. -/
def annotInWindow (startT endT : Int) (f : EDFFileR) (a : EDFAnnot) : Prop :=
  (startT : Rat) ≤ (f.header.startTime : Rat) + a.onset * 1000 ∧
    (f.header.startTime : Rat) + a.onset * 1000 ≤ (endT : Rat)

instance (startT endT : Int) (f : EDFFileR) (a : EDFAnnot) :
    Decidable (annotInWindow startT endT f a) := by
  unfold annotInWindow; infer_instance

/-- mergeSignals annotation retiming (Utils.ts lines 146-164): keep each
annotation whose absolute time falls inside the window, shifting its onset by
`(fileStart - windowStart) / 1000` seconds. -/
def mergedAnnots (startT endT : Int) (files : List EDFFileR) : List EDFAnnot :=
  (files.map fun f =>
    f.annots.filterMap fun a =>
      if annotInWindow startT endT f a then
        some { a with onset := a.onset + ((f.header.startTime - startT : Int) : Rat) / 1000 }
      else none).flatten

/-- The result record of Utils.ts `mergeSignals`. -/
structure MergedOut where
  signals : List EDFSignal
  values : List (List Int)
  annots : List EDFAnnot
deriving DecidableEq, Repr

/-- Utils.ts `mergeSignals`: group the candidates' signals by label, pick the
highest-resolution entry per label (stable sort, first element), extract its
sample range for the window, and retime the in-window annotations. -/
def mergeSignals (startT endT : Int) (files : List EDFFileR) : MergedOut :=
  let picks := (labelKeys files).filterMap (pickFor files)
  { signals := picks.map fun best => best.signal
    values := picks.map fun best =>
      let file := files.getD best.fileIndex emptyFileR
      extractSamples startT endT file best.signal (file.values.getD best.index [])
    annots := mergedAnnots startT endT files }

/-- ResMedLoader.ts `CANONICAL_NAMES`: the ResMed synonym table (JS `Map`
in insertion order). -/
def CANONICAL_NAMES : List (String × List String) :=
  [ ("Flow", ["Flow.40ms"]),
    ("MaskPressure", ["Press.40ms", "MaskPress.2s"]),
    ("RespEvent", ["TrigCycEvt.40ms"]),
    ("InspPressure", ["Press.2s", "IPAP", "S.BL.IPAP", "S.S.IPAP"]),
    ("ExpPressure", ["EprPress.2s", "EPAP", "S.BL.EPAP", "EPRPress.2s", "S.S.EPAP"]),
    ("Leak",
      ["Leck", "Fuites", "Fuite", "Fuga", "泄漏气", "Lekk", "Läck", "LÃ¤ck",
       "Leak.2s", "Sızıntı"]),
    ("RespRate", ["AF", "FR", "RespRate.2s"]),
    ("MinuteVent", ["VM", "MinVent.2s"]),
    ("TidalVolume", ["VC", "TidVol.2s"]),
    ("InspExpRatio", ["IERatio.2s"]),
    ("Snore", ["Snore.2s"]),
    ("FlowLim", ["FlowLim.2s"]),
    ("InspTime", ["Ti.2s", "B5ITime.2s"]),
    ("ExpTime", ["B5ETime.2s"]),
    ("TgtMinuteVent", ["TgtVent.2s"]),
    ("Pulse", ["Puls", "Pouls", "Pols", "Pulse.1s", "Nabiz"]),
    ("SpO2", ["SpO2.1s"]) ]

def spo2Sub : String := "spo2"

def pulseSub : String := "pulse"

/-- One optional-sensor pass of ResMedLoader.ts `postProcess`: find the first
signal whose lowercased label contains `sub`; if none of its samples is
positive, remove that signal descriptor and its value array and decrement the
signal count. -/
def removeInvalidChannel (sub : String) (f : EDFFileR) : EDFFileR :=
  match f.header.signals.findIdx? (fun s => strIncludes (lowerStr s.label) sub) with
  | none => f
  | some i =>
    if (f.values.getD i []).any (fun v => 0 < v) then f
    else
      { f with
        header := { f.header with
                    signals := f.header.signals.eraseIdx i,
                    signalCount := f.header.signalCount - 1 },
        values := f.values.eraseIdx i }

/-- ResMedLoader.ts `postProcess`: drop the SpO2 channel, then the Pulse
channel, when the corresponding sensor reported no positive sample. -/
def postProcess (f : EDFFileR) : EDFFileR :=
  removeInvalidChannel pulseSub (removeInvalidChannel spo2Sub f)

/-- A session file as decoded by the external EDF codec, the input of the
ResMed reconciliation model: the header, the per-channel sample arrays
(`reader.readSignal i` for each channel), the raw annotations
(`reader.readAnnotations()`), and the timestamp in seconds of the last data
record (`reader.getRecordTimestamp(header.dataRecords - 1)`). -/
structure RMDecodedFile where
  header : EDFHeaderR
  values : List (List Int)
  rawAnnots : List EDFAnnot
  lastRecordOffset : Int
deriving DecidableEq, Repr

/-- The fixed ResMed record duration asserted by `loadSession`. -/
def rmRecordDuration : Int := 60

/-- The per-file body of the `loadSession` loading loop (ResMedLoader.ts
lines 134-198): reject a record duration other than 60 or 0; filter out the
housekeeping channels; canonicalize labels; apply the onset-as-end-time
annotation correction; skip the file when its record count is non-positive;
compute the file end, overridden to the session end for an EDF+D (interrupted)
recording; and return the interval-index entry `(start, end, file)`. -/
def rmLoadFile (sessionEnd : Int) (d : RMDecodedFile) :
    Except String (Option (Int × Int × EDFFileWithDuration)) :=
  if d.header.recordDuration ≠ rmRecordDuration ∧ d.header.recordDuration ≠ 0 then
    Except.error ("Unexpected record duration: " ++ toString d.header.recordDuration
      ++ " seconds. Expected " ++ toString rmRecordDuration ++ " seconds.")
  else
    let fv := filterSignals d.header.signals d.values ["EDF Annotations", "Crc16", ""]
    let sigs := canonicalizeLabels fv.1 CANONICAL_NAMES
    let annots := d.rawAnnots.map fun a =>
      { a with onset := max 0 (a.onset - (a.duration.getD 0)) }
    let start := d.header.startTime
    if d.header.dataRecords ≤ 0 then Except.ok none
    else
      let endOffset := d.lastRecordOffset
      let e := start + (endOffset + d.header.recordDuration) * 1000
      let e := if d.header.reserved = "EDF+D" then sessionEnd else e
      Except.ok (some (start, e,
        { header := { d.header with signals := sigs },
          values := fv.2,
          annots := annots,
          duration := (e - start).tdiv 1000 }))

/-- The `loadSession` loading loop: process the decoded files in order,
accumulating the interval-index entries; the first record-duration mismatch
aborts the whole call. The interval index is modelled as a list searched
linearly (any correct interval-overlap structure satisfies the contract). -/
def rmBuildTree (sessionEnd : Int) :
    List RMDecodedFile → Except String (List (Int × Int × EDFFileWithDuration))
  | [] => Except.ok []
  | d :: ds =>
    match rmLoadFile sessionEnd d with
    | Except.error m => Except.error m
    | Except.ok none => rmBuildTree sessionEnd ds
    | Except.ok (some ent) =>
      match rmBuildTree sessionEnd ds with
      | Except.error m => Except.error m
      | Except.ok rest => Except.ok (ent :: rest)

/-- ResMedLoader.ts `loadSession` after the per-file decoding (the codec reads
are inputs): build the interval index, query the files overlapping the session
bounds, compute the aligned window, merge, and post-process. The source's call
`findCommonTimeRange(overlappingFiles)` omits the record-duration argument that
Utils.ts requires; the only well-typed reading supplies the enclosing
`recordDuration = 60` constant, which is what this model does. -/
def rmLoadSession (sess : SessionR) (decoded : List RMDecodedFile) :
    Except String EDFFileR :=
  match rmBuildTree sess.endMs decoded with
  | Except.error m => Except.error m
  | Except.ok tree =>
    let overlapping := (tree.filter fun ent =>
      ent.1 ≤ sess.endMs ∧ sess.startMs ≤ ent.2.1).map fun ent => ent.2.2
    let w := findCommonTimeRange overlapping rmRecordDuration
    let merged := mergeSignals w.1 w.2 (overlapping.map fun f => f.toEDFFileR)
    Except.ok (postProcess
      { header := { startTime := w.1,
                    dataRecords := ⌈((w.2 - w.1 : Int) : Rat) / ((rmRecordDuration * 1000 : Int) : Rat)⌉,
                    recordDuration := rmRecordDuration,
                    signalCount := merged.signals.length,
                    signals := merged.signals,
                    reserved := "" },
        values := merged.values,
        annots := merged.annots })

/-- A session-marker file (`*_BRP.edf`) as decoded during discovery, the input
of the `sessions` model. -/
def rmSessions (markers : List RMDecodedFile) : List SessionR :=
  markers.filterMap fun m =>
    if m.header.dataRecords ≤ 0 then none
    else some { startMs := m.header.startTime,
                endMs := m.header.startTime
                  + (m.lastRecordOffset + m.header.recordDuration) * 1000 }

/-- Byte lookup in a flat oximetry file (`DataView.getUint8`); the decode loop
guards every read, so the default is never reached on in-range data. -/
def byteAt (view : List Nat) (idx : Nat) : Nat :=
  view.getD idx 0

/-- Little-endian 16-bit read (`DataView.getUint16(off, true)`). -/
def leU16 (view : List Nat) (off : Nat) : Nat :=
  byteAt view off + 256 * byteAt view (off + 1)

/-- Little-endian 32-bit read (`DataView.getUint32(off, true)`). -/
def leU32 (view : List Nat) (off : Nat) : Nat :=
  byteAt view off + 256 * byteAt view (off + 1)
    + 65536 * byteAt view (off + 2) + 16777216 * byteAt view (off + 3)

/-- SpO2AssistantLoader.ts `parseHeader`, reduced to the fields the decoder
uses: the header block offset (16-bit pointer at offset 0) and the sample
count (32-bit at `h+224`); absent when `h+228` exceeds the file length. The
start date fields at `h+200..h+220` only feed the (timezone-dependent) `Date`
constructor and are not needed by the decode model. -/
def spo2HeaderInfo (view : List Nat) : Option (Nat × Nat) :=
  let headerOffset := leU16 view 0
  if view.length < headerOffset + 228 then none
  else some (headerOffset, leU32 view (headerOffset + 224))

/-- Sentinel normalization of one record's byte pair: `(0x7F, 0xFF)` means
"no reading" and becomes `(0, 0)`; any other pair passes through. -/
def normPair (spo2 pulse : Nat) : Nat × Nat :=
  if spo2 = 127 ∧ pulse = 255 then (0, 0) else (spo2, pulse)

/-- The per-record decode loop of SpO2AssistantLoader.ts `loadSession`
(lines 73-96): for each record, first skip `bytesPerRecord - 2` bytes when the
record is wider than two bytes, stop if fewer than two bytes remain, read the
SpO2 and pulse bytes, normalize the sentinel pair, and advance past them. -/
def spo2DecodeLoop (view : List Nat) (fileSize bpr : Nat) :
    Nat → Nat → List Nat × List Nat
  | 0, _ => ([], [])
  | n + 1, cursor =>
    let cursor := if 2 < bpr then cursor + (bpr - 2) else cursor
    if fileSize < cursor + 2 then ([], [])
    else
      let p := normPair (byteAt view cursor) (byteAt view (cursor + 1))
      let rest := spo2DecodeLoop view fileSize bpr n (cursor + 2)
      (p.1 :: rest.1, p.2 :: rest.2)

/-- The value-decoding part of SpO2AssistantLoader.ts `loadSession`: the
payload starts at `headerOffset + 228` and
`bytesPerRecord = (fileSize - payloadStart) / sampleCount` (exact on the
padded files this tolerates; modelled by `Nat` division). Returns the SpO2
and pulse value arrays, or absent for an invalid header. -/
def spo2LoadValues (view : List Nat) : Option (List Nat × List Nat) :=
  match spo2HeaderInfo view with
  | none => none
  | some hs =>
    let cursor := hs.1 + 228
    let fileSize := view.length
    let bpr := (fileSize - cursor) / hs.2
    some (spo2DecodeLoop view fileSize bpr hs.2 cursor)

lemma foldl_max_init (l : List Int) (a : Int) : a ≤ l.foldl max a := by
  induction l generalizing a with
  | nil => exact le_refl a
  | cons y ys ih => exact le_trans (le_max_left a y) (ih (max a y))

lemma foldl_max_of_mem {l : List Int} {x : Int} (h : x ∈ l) (a : Int) :
    x ≤ l.foldl max a := by
  induction l generalizing a with
  | nil => cases h
  | cons y ys ih =>
    rcases List.mem_cons.mp h with rfl | hm
    · exact le_trans (le_max_right a x) (foldl_max_init ys (max a x))
    · exact ih hm (max a y)

lemma foldl_max_mem (l : List Int) (a : Int) :
    l.foldl max a = a ∨ l.foldl max a ∈ l := by
  induction l generalizing a with
  | nil => exact Or.inl rfl
  | cons y ys ih =>
    rcases ih (max a y) with heq | hm
    · rcases max_choice a y with h1 | h1
      · exact Or.inl (by rw [List.foldl_cons, heq, h1])
      · exact Or.inr (by rw [List.foldl_cons, heq, h1]; exact List.mem_cons_self y ys)
    · exact Or.inr (List.mem_cons_of_mem y hm)

lemma foldl_min_init (l : List Int) (a : Int) : l.foldl min a ≤ a := by
  induction l generalizing a with
  | nil => exact le_refl a
  | cons y ys ih => exact le_trans (ih (min a y)) (min_le_left a y)

lemma foldl_min_of_mem {l : List Int} {x : Int} (h : x ∈ l) (a : Int) :
    l.foldl min a ≤ x := by
  induction l generalizing a with
  | nil => cases h
  | cons y ys ih =>
    rcases List.mem_cons.mp h with rfl | hm
    · exact le_trans (foldl_min_init ys (min a x)) (min_le_right a x)
    · exact ih hm (min a y)

lemma foldl_min_mem (l : List Int) (a : Int) :
    l.foldl min a = a ∨ l.foldl min a ∈ l := by
  induction l generalizing a with
  | nil => exact Or.inl rfl
  | cons y ys ih =>
    rcases ih (min a y) with heq | hm
    · rcases min_choice a y with h1 | h1
      · exact Or.inl (by rw [List.foldl_cons, heq, h1])
      · exact Or.inr (by rw [List.foldl_cons, heq, h1]; exact List.mem_cons_self y ys)
    · exact Or.inr (List.mem_cons_of_mem y hm)

lemma intMax_mem {l : List Int} (h : l ≠ []) : intMax l ∈ l := by
  cases l with
  | nil => exact absurd rfl h
  | cons x xs =>
    rcases foldl_max_mem xs x with heq | hm
    · rw [intMax, heq]; exact List.mem_cons_self x xs
    · exact List.mem_cons_of_mem x hm

lemma le_intMax {l : List Int} {x : Int} (h : x ∈ l) : x ≤ intMax l := by
  cases l with
  | nil => cases h
  | cons y ys =>
    rcases List.mem_cons.mp h with rfl | hm
    · exact foldl_max_init ys x
    · exact foldl_max_of_mem hm y

lemma intMin_mem {l : List Int} (h : l ≠ []) : intMin l ∈ l := by
  cases l with
  | nil => exact absurd rfl h
  | cons x xs =>
    rcases foldl_min_mem xs x with heq | hm
    · rw [intMin, heq]; exact List.mem_cons_self x xs
    · exact List.mem_cons_of_mem x hm

lemma intMin_le {l : List Int} {x : Int} (h : x ∈ l) : intMin l ≤ x := by
  cases l with
  | nil => cases h
  | cons y ys =>
    rcases List.mem_cons.mp h with rfl | hm
    · exact foldl_min_init ys x
    · exact foldl_min_of_mem hm y

/-- C1: for a non-empty candidate list and a positive record duration,
`findCommonTimeRange` returns `start` equal to the maximum of the files'
start times and `end` equal to the minimum of the files' end times
(`start + duration`) truncated down by `(rawEnd - start) % (recordDuration *
1000)`; when the files mutually overlap, the window satisfies `start ≥` every
file start, `end ≤` every file end, and `end - start` is an exact multiple of
the record duration. -/
theorem findCommonTimeRange_aligned_window (files : List EDFFileWithDuration)
    (d : Int) (hne : files ≠ []) (hd : 0 < d)
    (hov : ∀ f ∈ files, ∀ g ∈ files,
      f.header.startTime ≤ g.header.startTime + g.duration * 1000) :
    (∃ f ∈ files, (findCommonTimeRange files d).1 = f.header.startTime) ∧
    (∀ f ∈ files, f.header.startTime ≤ (findCommonTimeRange files d).1) ∧
    (∃ g ∈ files,
      (∀ f ∈ files, g.header.startTime + g.duration * 1000
          ≤ f.header.startTime + f.duration * 1000) ∧
      (findCommonTimeRange files d).2
        = g.header.startTime + g.duration * 1000
          - ((g.header.startTime + g.duration * 1000
              - (findCommonTimeRange files d).1).tmod (d * 1000))) ∧
    (∀ f ∈ files, (findCommonTimeRange files d).2
        ≤ f.header.startTime + f.duration * 1000) ∧
    (d * 1000) ∣ ((findCommonTimeRange files d).2 - (findCommonTimeRange files d).1) := by
  have hS : files.map (fun f => f.header.startTime) ≠ [] := by
    simpa using hne
  have hE : files.map (fun f => f.header.startTime + f.duration * 1000) ≠ [] := by
    simpa using hne
  obtain ⟨f0, hf0, hf0s⟩ := List.mem_map.mp (intMax_mem hS)
  obtain ⟨g0, hg0, hg0e⟩ := List.mem_map.mp (intMin_mem hE)
  set start := intMax (files.map fun f => f.header.startTime) with hstart
  set rawEnd := intMin (files.map fun f => f.header.startTime + f.duration * 1000)
    with hrawEnd
  have hw1 : (findCommonTimeRange files d).1 = start := rfl
  have hw2 : (findCommonTimeRange files d).2
      = rawEnd - (rawEnd - start).tmod (d * 1000) := rfl
  have hsr : start ≤ rawEnd := by
    rw [← hf0s, ← hg0e]; exact hov f0 hf0 g0 hg0
  have htnn : 0 ≤ (rawEnd - start).tmod (d * 1000) :=
    Int.tmod_nonneg _ (by omega)
  refine ⟨⟨f0, hf0, by rw [hw1, hf0s]⟩, ?_, ⟨g0, hg0, ?_, ?_⟩, ?_, ?_⟩
  · intro f hf
    rw [hw1, hstart]
    exact le_intMax (List.mem_map.mpr ⟨f, hf, rfl⟩)
  · intro f hf
    rw [hg0e, hrawEnd]
    exact intMin_le (List.mem_map.mpr ⟨f, hf, rfl⟩)
  · rw [hw2, hw1, hg0e]
  · intro f hf
    have h1 : rawEnd ≤ f.header.startTime + f.duration * 1000 := by
      rw [hrawEnd]; exact intMin_le (List.mem_map.mpr ⟨f, hf, rfl⟩)
    rw [hw2]; omega
  · rw [hw2, hw1]
    have := Int.tdiv_add_tmod (rawEnd - start) (d * 1000)
    exact ⟨(rawEnd - start).tdiv (d * 1000), by omega⟩

def c1FileA : EDFFileWithDuration :=
  { header := { startTime := 0, dataRecords := 10, recordDuration := 60,
                signalCount := 0, signals := [], reserved := "" },
    values := [], annots := [], duration := 600 }

def c1FileB : EDFFileWithDuration :=
  { header := { startTime := 120000, dataRecords := 10, recordDuration := 60,
                signalCount := 0, signals := [], reserved := "" },
    values := [], annots := [], duration := 600 }

/-- Witness for C1 at two concrete overlapping files. -/
theorem findCommonTimeRange_aligned_window_witness :
    (60 : Int) * 1000 ∣ ((findCommonTimeRange [c1FileA, c1FileB] 60).2
      - (findCommonTimeRange [c1FileA, c1FileB] 60).1) :=
  (findCommonTimeRange_aligned_window [c1FileA, c1FileB] 60 (by decide) (by decide)
    (by decide)).2.2.2.2

lemma canonLabel_of_no_match (syns : List (String × List String)) (s : EDFSignal)
    (h : ∀ p ∈ syns, s.label ∉ p.2) : canonLabel syns s = s := by
  induction syns with
  | nil => rfl
  | cons q rest ih =>
    obtain ⟨c, aliases⟩ := q
    have hq : s.label ∉ aliases := h (c, aliases) (List.mem_cons_self _ _)
    have hfalse : (aliases.any fun al => al = s.label) = false := by
      by_contra hc
      rw [Bool.not_eq_false] at hc
      obtain ⟨al, hal, heq⟩ := List.any_eq_true.mp hc
      have hale : al = s.label := of_decide_eq_true heq
      exact hq (hale ▸ hal)
    rw [canonLabel, hfalse]
    · simp only [Bool.false_eq_true, if_false]
      exact ih fun p hp => h p (List.mem_cons_of_mem _ hp)

lemma canonLabel_cases (syns : List (String × List String)) (s : EDFSignal) :
    canonLabel syns s = s ∨
      ∃ p ∈ syns, s.label ∈ p.2 ∧ canonLabel syns s = { s with label := p.1 } := by
  induction syns with
  | nil => exact Or.inl rfl
  | cons q rest ih =>
    obtain ⟨c, aliases⟩ := q
    by_cases hm : aliases.any (fun al => al = s.label) = true
    · refine Or.inr ⟨(c, aliases), List.mem_cons_self _ _, ?_, ?_⟩
      · obtain ⟨al, hal, heq⟩ := List.any_eq_true.mp hm
        have : al = s.label := by simpa using heq
        rw [← this]; exact hal
      · rw [canonLabel, hm]; simp
    · have hrw : canonLabel ((c, aliases) :: rest) s = canonLabel rest s := by
        rw [canonLabel, Bool.not_eq_true] at *
        rw [hm]; simp
      rcases ih with h | ⟨p, hp, hmem, heq⟩
      · exact Or.inl (by rw [hrw, h])
      · exact Or.inr ⟨p, List.mem_cons_of_mem _ hp, hmem, by rw [hrw, heq]⟩

lemma canonTargets_no_alias :
    ∀ c ∈ CANONICAL_NAMES.map Prod.fst, ∀ p ∈ CANONICAL_NAMES, c ∉ p.2 := by
  decide

lemma canonLabel_idem (s : EDFSignal) :
    canonLabel CANONICAL_NAMES (canonLabel CANONICAL_NAMES s)
      = canonLabel CANONICAL_NAMES s := by
  rcases canonLabel_cases CANONICAL_NAMES s with h | ⟨p, hp, _, h⟩
  · rw [h]
    exact h
  · rw [h]
    refine canonLabel_of_no_match _ _ ?_
    intro q hq
    exact canonTargets_no_alias p.1 (List.mem_map.mpr ⟨p, hp, rfl⟩) q hq

/-- C10: `canonicalizeLabels` replaces a label only on an exact,
case-sensitive alias match, leaves unmatched labels unchanged, never alters
any other descriptor field, and is idempotent with the ResMed synonym
table. -/
theorem canonicalizeLabels_exact_and_idem (syns : List (String × List String))
    (s : EDFSignal) (sigs : List EDFSignal) :
    ((∀ p ∈ syns, s.label ∉ p.2) → canonLabel syns s = s) ∧
    (canonLabel syns s ≠ s →
      ∃ p ∈ syns, s.label ∈ p.2 ∧ canonLabel syns s = { s with label := p.1 }) ∧
    ({ canonLabel syns s with label := s.label } = s) ∧
    canonicalizeLabels (canonicalizeLabels sigs CANONICAL_NAMES) CANONICAL_NAMES
      = canonicalizeLabels sigs CANONICAL_NAMES := by
  refine ⟨canonLabel_of_no_match syns s, ?_, ?_, ?_⟩
  · intro hne
    rcases canonLabel_cases syns s with h | h
    · exact absurd h hne
    · exact h
  · rcases canonLabel_cases syns s with h | ⟨p, _, _, h⟩
    · rw [h]
    · rw [h]
  · unfold canonicalizeLabels
    rw [List.map_map]
    apply List.map_congr_left
    intro a _
    exact canonLabel_idem a

def c10Sig : EDFSignal :=
  { label := "Flow", transducerType := "", physicalDimension := "L/s",
    physicalMin := -2, physicalMax := 3, digitalMin := -1000, digitalMax := 1500,
    prefiltering := "", samplesPerRecord := 1500, reserved := none }

/-- Witness for C10: a label that matches no alias passes through unchanged. -/
theorem canonicalizeLabels_exact_and_idem_witness :
    canonLabel CANONICAL_NAMES c10Sig = c10Sig :=
  (canonicalizeLabels_exact_and_idem CANONICAL_NAMES c10Sig []).1 (by decide)

lemma findIdx?_some_lt_aux {α : Type} (p : α → Bool) :
    ∀ (l : List α) (s i : Nat), List.findIdx? p l s = some i → s ≤ i ∧ i - s < l.length := by
  intro l
  induction l with
  | nil => intro s i h; simp [List.findIdx?] at h
  | cons x xs ih =>
    intro s i h
    rw [List.findIdx?_cons] at h
    by_cases hp : p x = true
    · rw [if_pos hp] at h
      injection h with h2
      subst h2
      exact ⟨Nat.le_refl s, by simp only [List.length_cons]; omega⟩
    · rw [if_neg hp] at h
      obtain ⟨h1, h2⟩ := ih (s + 1) i h
      constructor
      · omega
      · simp only [List.length_cons]; omega

lemma findIdx?_some_lt {α : Type} {p : α → Bool} {l : List α} {i : Nat}
    (h : List.findIdx? p l = some i) : i < l.length := by
  have := findIdx?_some_lt_aux p l 0 i h
  omega

/-- C9: for an optional-sensor label, the post-processing pass leaves the
file unchanged iff the matched channel holds some positive sample; otherwise
it removes exactly that channel (descriptor and value array) and decrements
the signal count by one, leaving everything else in place; `postProcess` is
the SpO2 pass followed by the Pulse pass. -/
theorem postProcess_optional_channel (sub : String) (f : EDFFileR) (i : Nat)
    (hsub : sub = spo2Sub ∨ sub = pulseSub)
    (hfind : f.header.signals.findIdx? (fun s => strIncludes (lowerStr s.label) sub) = some i)
    (hwf : f.values.length = f.header.signals.length) :
    (removeInvalidChannel sub f = f ↔ (f.values.getD i []).any (fun v => 0 < v) = true) ∧
    ((f.values.getD i []).any (fun v => 0 < v) = false →
      removeInvalidChannel sub f =
        { f with
          header := { f.header with
                      signals := f.header.signals.eraseIdx i,
                      signalCount := f.header.signalCount - 1 },
          values := f.values.eraseIdx i }) ∧
    postProcess f = removeInvalidChannel pulseSub (removeInvalidChannel spo2Sub f) := by
  have hi : i < f.header.signals.length := findIdx?_some_lt hfind
  have hrw : removeInvalidChannel sub f =
      (if (f.values.getD i []).any (fun v => 0 < v) then f
       else
        { f with
          header := { f.header with
                      signals := f.header.signals.eraseIdx i,
                      signalCount := f.header.signalCount - 1 },
          values := f.values.eraseIdx i }) := by
    unfold removeInvalidChannel
    rw [hfind]
  refine ⟨⟨?_, ?_⟩, ?_, rfl⟩
  · intro heq
    by_contra hc
    rw [Bool.not_eq_true] at hc
    rw [hrw, if_neg (by rw [hc]; exact Bool.false_ne_true)] at heq
    have hlen : (f.header.signals.eraseIdx i).length = f.header.signals.length := by
      have := congrArg (fun g => g.header.signals.length) heq
      simpa using this
    rw [List.length_eraseIdx, if_pos hi] at hlen
    omega
  · intro hany
    rw [hrw, if_pos hany]
  · intro hany
    rw [hrw, if_neg (by rw [hany]; exact Bool.false_ne_true)]

def c9File : EDFFileR :=
  { header := { startTime := 0, dataRecords := 1, recordDuration := 60,
                signalCount := 1,
                signals := [{ label := "SpO2", transducerType := "",
                              physicalDimension := "%", physicalMin := 0,
                              physicalMax := 100, digitalMin := 0,
                              digitalMax := 255, prefiltering := "",
                              samplesPerRecord := 3, reserved := none }],
                reserved := "" },
    values := [[0, 0, 5]], annots := [] }

/-- Witness for C9: an SpO2 channel that is all zeros except one sample equal
to 5 is retained unchanged. -/
theorem postProcess_optional_channel_witness :
    removeInvalidChannel spo2Sub c9File = c9File :=
  (postProcess_optional_channel spo2Sub c9File 0 (Or.inl rfl) (by decide)
    (by decide)).1.mpr (by decide)

/-- C5: `mergeSignals` keeps an annotation exactly when its absolute time
`fileStart + onset * 1000` lies in the inclusive window, each kept annotation
is shifted by `(fileStart - windowStart) / 1000` seconds, and every merged
annotation arises from such an in-window source annotation (ones outside the
window appear nowhere). -/
theorem mergeSignals_annot_window (startT endT : Int) (files : List EDFFileR) :
    (∀ f ∈ files, ∀ a ∈ f.annots, annotInWindow startT endT f a →
      { a with onset := a.onset + ((f.header.startTime - startT : Int) : Rat) / 1000 }
        ∈ (mergeSignals startT endT files).annots) ∧
    (∀ b ∈ (mergeSignals startT endT files).annots,
      ∃ f ∈ files, ∃ a ∈ f.annots, annotInWindow startT endT f a ∧
        b = { a with
              onset := a.onset + ((f.header.startTime - startT : Int) : Rat) / 1000 }) := by
  have hann : (mergeSignals startT endT files).annots
      = mergedAnnots startT endT files := rfl
  constructor
  · intro f hf a ha hin
    rw [hann]
    unfold mergedAnnots
    refine List.mem_flatten.mpr ⟨_, List.mem_map.mpr ⟨f, hf, rfl⟩, ?_⟩
    exact List.mem_filterMap.mpr ⟨a, ha, by rw [if_pos hin]⟩
  · intro b hb
    rw [hann] at hb
    unfold mergedAnnots at hb
    obtain ⟨l, hl, hbl⟩ := List.mem_flatten.mp hb
    obtain ⟨f, hf, rfl⟩ := List.mem_map.mp hl
    obtain ⟨a, ha, hsome⟩ := List.mem_filterMap.mp hbl
    by_cases hin : annotInWindow startT endT f a
    · rw [if_pos hin] at hsome
      exact ⟨f, hf, a, ha, hin, (Option.some_inj.mp hsome).symm⟩
    · rw [if_neg hin] at hsome
      cases hsome

def c5Ann : EDFAnnot :=
  { onset := 2, duration := none, description := "Obstructive Apnea" }

def c5File : EDFFileR :=
  { header := { startTime := 1000, dataRecords := 1, recordDuration := 60,
                signalCount := 0, signals := [], reserved := "" },
    values := [], annots := [c5Ann] }

/-- Witness for C5: an in-window annotation is kept, shifted by
`(fileStart - windowStart) / 1000` seconds. -/
theorem mergeSignals_annot_window_witness :
    { c5Ann with
      onset := c5Ann.onset + ((c5File.header.startTime - (0 : Int) : Int) : Rat) / 1000 }
      ∈ (mergeSignals 0 10000 [c5File]).annots :=
  (mergeSignals_annot_window 0 10000 [c5File]).1 c5File (List.mem_singleton.mpr rfl)
    c5Ann (List.mem_singleton.mpr rfl) (by norm_num [annotInWindow, c5File, c5Ann])

lemma ratFloor_intCast_div (a b : Int) (hb : 0 < b) :
    ⌊((a : Rat) / (b : Rat))⌋ = a / b := by
  have hbq : (0 : Rat) < (b : Rat) := by exact_mod_cast hb
  rw [Int.floor_eq_iff]
  have hmod1 := Int.ediv_add_emod a b
  have hmod2 := Int.emod_nonneg a (by omega : b ≠ 0)
  have hmod3 := Int.emod_lt_of_pos a hb
  constructor
  · rw [le_div_iff₀ hbq]
    have hint : (a / b) * b ≤ a := by nlinarith
    exact_mod_cast hint
  · rw [div_lt_iff₀ hbq]
    have hint : a < (a / b + 1) * b := by nlinarith
    exact_mod_cast hint

lemma ratCeil_intCast_div (a b : Int) (hb : 0 < b) :
    ⌈((a : Rat) / (b : Rat))⌉ = -(-a / b) := by
  have h1 := Int.floor_neg (a := (a : Rat) / (b : Rat))
  have h2 : -((a : Rat) / (b : Rat)) = ((-a : Int) : Rat) / (b : Rat) := by
    push_cast
    ring
  rw [h2] at h1
  rw [ratFloor_intCast_div _ _ hb] at h1
  omega

/-- Floor of `x * (p / q)` over the rationals, as exact integer division. -/
lemma floorMulDiv (x p q : Int) (hq : 0 < q) :
    ⌊((x : Int) : Rat) * ((p : Rat) / ((q : Int) : Rat))⌋ = x * p / q := by
  rw [show ((x : Int) : Rat) * ((p : Rat) / ((q : Int) : Rat))
      = ((x * p : Int) : Rat) / ((q : Int) : Rat) by push_cast; ring]
  exact ratFloor_intCast_div _ _ hq

/-- Ceiling of `x * (p / q)` over the rationals, as exact integer division. -/
lemma ceilMulDiv (x p q : Int) (hq : 0 < q) :
    ⌈((x : Int) : Rat) * ((p : Rat) / ((q : Int) : Rat))⌉ = -(-(x * p) / q) := by
  rw [show ((x : Int) : Rat) * ((p : Rat) / ((q : Int) : Rat))
      = ((x * p : Int) : Rat) / ((q : Int) : Rat) by push_cast; ring]
  exact ratCeil_intCast_div _ _ hq

/-- The sample-index arithmetic of `extractSamples`, reduced to exact integer
division (used to evaluate the model on concrete inputs). -/
lemma extractSamples_eval (startT endT : Int) (file : EDFFileR) (sig : EDFSignal)
    (vals : List Int) (hd : 0 < file.header.recordDuration) :
    extractSamples startT endT file sig vals =
      jsSlice vals
        (((startT - file.header.startTime) * sig.samplesPerRecord)
          / (file.header.recordDuration * 1000))
        (-(-((endT - file.header.startTime) * sig.samplesPerRecord)
          / (file.header.recordDuration * 1000))) := by
  have hqpos : (0 : Int) < file.header.recordDuration * 1000 := by omega
  have h1 := floorMulDiv (startT - file.header.startTime) sig.samplesPerRecord
    (file.header.recordDuration * 1000) hqpos
  have h2 := ceilMulDiv (endT - file.header.startTime) sig.samplesPerRecord
    (file.header.recordDuration * 1000) hqpos
  show jsSlice vals
      ⌊((startT - file.header.startTime : Int) : Rat)
        * ((sig.samplesPerRecord : Rat) / ((file.header.recordDuration * 1000 : Int) : Rat))⌋
      ⌈((endT - file.header.startTime : Int) : Rat)
        * ((sig.samplesPerRecord : Rat) / ((file.header.recordDuration * 1000 : Int) : Rat))⌉
      = _
  rw [h1, h2]

/-- The `values` component of `mergeSignals`, definitionally. -/
lemma mergeSignals_values_eq (startT endT : Int) (files : List EDFFileR) :
    (mergeSignals startT endT files).values
      = ((labelKeys files).filterMap (pickFor files)).map fun best =>
          extractSamples startT endT (files.getD best.fileIndex emptyFileR) best.signal
            ((files.getD best.fileIndex emptyFileR).values.getD best.index []) := rfl

/-- C3 (amended): when the window length is a non-negative multiple `k` of the
source file's record duration, the window starts no earlier than the file, and
the extraction range stays within the sample array (`endSample ≤ length`), the
extracted length is `k * samplesPerRecord` or that plus one — within one
sample of the nominal `(end - start) * samplesPerRecord / recordDurationMs`. -/
theorem mergeSignals_extract_length (startT endT : Int) (file : EDFFileR)
    (sig : EDFSignal) (vals : List Int) (k : Int)
    (hd : 0 < file.header.recordDuration)
    (hspr : 0 ≤ sig.samplesPerRecord)
    (hfs : file.header.startTime ≤ startT)
    (hk : 0 ≤ k)
    (hwin : endT - startT = k * (file.header.recordDuration * 1000))
    (hend : ⌈((endT - file.header.startTime : Int) : Rat)
        * ((sig.samplesPerRecord : Rat)
          / ((file.header.recordDuration * 1000 : Int) : Rat))⌉ ≤ (vals.length : Int)) :
    ((extractSamples startT endT file sig vals).length : Int)
        = k * sig.samplesPerRecord ∨
    ((extractSamples startT endT file sig vals).length : Int)
        = k * sig.samplesPerRecord + 1 := by
  have hqpos : (0 : Int) < file.header.recordDuration * 1000 := by omega
  set fs := file.header.startTime with hfsdef
  set q : Int := file.header.recordDuration * 1000 with hqdef
  have hq0 : ((q : Int) : Rat) ≠ 0 := Int.cast_ne_zero.mpr (ne_of_gt hqpos)
  set spm : Rat := (sig.samplesPerRecord : Rat) / ((q : Int) : Rat) with hspmdef
  set A : Rat := ((startT - fs : Int) : Rat) * spm with hAdef
  set B : Rat := ((endT - fs : Int) : Rat) * spm with hBdef
  have hext : extractSamples startT endT file sig vals = jsSlice vals ⌊A⌋ ⌈B⌉ := rfl
  have hIntEq : endT - fs = (startT - fs) + k * q := by linarith [hwin]
  have hBA : B = A + ((k * sig.samplesPerRecord : Int) : Rat) := by
    rw [hBdef, hAdef, show ((endT - fs : Int) : Rat)
        = (((startT - fs) + k * q : Int) : Rat) from Int.cast_inj.mpr hIntEq]
    push_cast
    rw [hspmdef]
    field_simp
    ring
  have hA0 : (0 : Rat) ≤ A := by
    rw [hAdef, hspmdef]
    have h1 : (0 : Rat) ≤ ((startT - fs : Int) : Rat) := by
      exact_mod_cast Int.sub_nonneg.mpr hfs
    have h2 : (0 : Rat) ≤ (sig.samplesPerRecord : Rat) := by exact_mod_cast hspr
    have h3 : (0 : Rat) ≤ ((q : Int) : Rat) := by exact_mod_cast le_of_lt hqpos
    positivity
  have hflA : 0 ≤ ⌊A⌋ := Int.le_floor.mpr (by exact_mod_cast hA0)
  have hceilB : ⌈B⌉ = ⌈A⌉ + k * sig.samplesPerRecord := by
    rw [hBA, Int.ceil_add_int]
  have hfc : ⌊A⌋ ≤ ⌈A⌉ := Int.floor_le_ceil A
  have hcf : ⌈A⌉ ≤ ⌊A⌋ + 1 := Int.ceil_le_floor_add_one A
  have hkspr : 0 ≤ k * sig.samplesPerRecord := mul_nonneg hk hspr
  have hAB : ⌊A⌋ ≤ ⌈B⌉ := by omega
  rw [hext]
  unfold jsSlice
  have hlo : (if (⌊A⌋ : Int) < 0 then max ((vals.length : Int) + ⌊A⌋) 0
      else min (⌊A⌋ : Int) (vals.length : Int)) = ⌊A⌋ := by
    rw [if_neg (by omega)]
    omega
  have hhi : (if (⌈B⌉ : Int) < 0 then max ((vals.length : Int) + ⌈B⌉) 0
      else min (⌈B⌉ : Int) (vals.length : Int)) = ⌈B⌉ := by
    rw [if_neg (by omega)]
    omega
  simp only [hlo, hhi]
  rw [List.length_take, List.length_drop]
  omega

instance {ε α : Type} [DecidableEq ε] [DecidableEq α] : DecidableEq (Except ε α) :=
  fun a b =>
  match a, b with
  | Except.error x, Except.error y =>
    if h : x = y then isTrue (by rw [h]) else isFalse (fun hc => h (by cases hc; rfl))
  | Except.error _, Except.ok _ => isFalse (fun hc => Except.noConfusion hc)
  | Except.ok _, Except.error _ => isFalse (fun hc => Except.noConfusion hc)
  | Except.ok x, Except.ok y =>
    if h : x = y then isTrue (by rw [h]) else isFalse (fun hc => h (by cases hc; rfl))

def c3wFile : EDFFileR :=
  { header := { startTime := 0, dataRecords := 1, recordDuration := 60,
                signalCount := 1, signals := [], reserved := "" },
    values := [], annots := [] }

def c3wSig : EDFSignal :=
  { label := "Pulse", transducerType := "", physicalDimension := "bpm",
    physicalMin := 0, physicalMax := 250, digitalMin := 0, digitalMax := 255,
    prefiltering := "", samplesPerRecord := 30, reserved := some ("") }

/-- Witness for the amended C3 at a one-record window fully inside the sample
array. -/
theorem mergeSignals_extract_length_witness :
    ((extractSamples 0 60000 c3wFile c3wSig (List.replicate 30 0)).length : Int)
        = 1 * 30 ∨
    ((extractSamples 0 60000 c3wFile c3wSig (List.replicate 30 0)).length : Int)
        = 1 * 30 + 1 :=
  mergeSignals_extract_length 0 60000 c3wFile c3wSig (List.replicate 30 0) 1
    (by decide) (by decide) (by decide) (by decide) (by decide)
    (by rw [ceilMulDiv _ _ _ (by decide)]; decide)

def c3Sig : EDFSignal :=
  { label := "Flow", transducerType := "", physicalDimension := "L/s",
    physicalMin := -2, physicalMax := 3, digitalMin := -1000, digitalMax := 1500,
    prefiltering := "", samplesPerRecord := 2, reserved := some ("") }

/-- An EDF+D (interrupted) session file: one 60-second record of data, inside
a session declared to span 600 seconds. -/
def c3Dec : RMDecodedFile :=
  { header := { startTime := 0, dataRecords := 1, recordDuration := 60,
                signalCount := 1, signals := [c3Sig], reserved := "EDF+D" },
    values := [[7, 8]], rawAnnots := [], lastRecordOffset := 0 }

def c3FWD : EDFFileWithDuration :=
  { header := { startTime := 0, dataRecords := 1, recordDuration := 60,
                signalCount := 1, signals := [c3Sig], reserved := "EDF+D" },
    values := [[7, 8]], annots := [], duration := 600 }

/-- Counterexample to C3 as stated: `loadSession` inserts the EDF+D file with
its end overridden to the session end (600000 ms), the aligned window spans
the full 600 seconds, but the merged channel keeps only the two samples that
exist, while the window length times the native rate is 20 samples — off by
18, not at most 1. -/
theorem mergeSignals_extract_length_counterexample :
    rmLoadFile 600000 c3Dec = Except.ok (some (0, 600000, c3FWD)) ∧
    findCommonTimeRange [c3FWD] 60 = (0, 600000) ∧
    (mergeSignals 0 600000 [c3FWD.toEDFFileR]).values.map List.length = [2] ∧
    (600000 - 0 : Int) * c3Sig.samplesPerRecord
      / (c3FWD.header.recordDuration * 1000) = 20 ∧
    ¬ ((2 : Int) - 20).natAbs ≤ 1 := by
  refine ⟨by decide, by decide, ?_, by decide, by decide⟩
  rw [mergeSignals_values_eq]
  rw [show (labelKeys [c3FWD.toEDFFileR]).filterMap (pickFor [c3FWD.toEDFFileR])
      = [{ signal := c3Sig, index := 0, fileIndex := 0 }] from by decide]
  simp only [List.map]
  rw [extractSamples_eval _ _ _ _ _ (by decide)]
  decide

/-- Characterization of the flat-oximetry decode loop: when every record is
`bpr ≥ 2` bytes and the remaining payload covers `n` records, record `i`'s
byte pair is read at the last two bytes of its record,
`cursor + i * bpr + (bpr - 2)` and the byte after, then sentinel-normalized. -/
lemma spo2DecodeLoop_spec (view : List Nat) (fileSize bpr : Nat) (hbpr : 2 ≤ bpr) :
    ∀ (n : Nat) (cursor : Nat), cursor + n * bpr ≤ fileSize →
      spo2DecodeLoop view fileSize bpr n cursor =
        ((List.range n).map fun i =>
          (normPair (byteAt view (cursor + i * bpr + (bpr - 2)))
            (byteAt view (cursor + i * bpr + (bpr - 2) + 1))).1,
         (List.range n).map fun i =>
          (normPair (byteAt view (cursor + i * bpr + (bpr - 2)))
            (byteAt view (cursor + i * bpr + (bpr - 2) + 1))).2) := by
  intro n
  induction n with
  | zero => intro cursor _; rfl
  | succ n ih =>
    intro cursor hbound
    have hcur : (if 2 < bpr then cursor + (bpr - 2) else cursor) = cursor + (bpr - 2) := by
      by_cases h2 : 2 < bpr
      · rw [if_pos h2]
      · rw [if_neg h2]
        omega
    have hstep : cursor + bpr ≤ fileSize := by
      have h1 : cursor + (n + 1) * bpr = cursor + bpr + n * bpr := by ring
      have h2 : 0 ≤ n * bpr := Nat.zero_le _
      omega
    have hguard : ¬ fileSize < (cursor + (bpr - 2)) + 2 := by omega
    have hrec : (cursor + bpr) + n * bpr ≤ fileSize := by
      have h1 : cursor + (n + 1) * bpr = cursor + bpr + n * bpr := by ring
      omega
    show (let cursor' := if 2 < bpr then cursor + (bpr - 2) else cursor
          if fileSize < cursor' + 2 then ([], [])
          else
            let p := normPair (byteAt view cursor') (byteAt view (cursor' + 1))
            let rest := spo2DecodeLoop view fileSize bpr n (cursor' + 2)
            (p.1 :: rest.1, p.2 :: rest.2)) = _
    rw [hcur]
    rw [if_neg hguard]
    have hc2 : cursor + (bpr - 2) + 2 = cursor + bpr := by omega
    rw [hc2, ih (cursor + bpr) hrec]
    have hrange := List.range_succ_eq_map n
    refine Prod.ext ?_ ?_ <;>
      simp only [hrange, List.map_cons, List.map_map] <;>
      refine congrArg₂ _ ?_ ?_
    · have h0 : cursor + 0 * bpr + (bpr - 2) = cursor + (bpr - 2) := by omega
      rw [h0]
    · refine List.map_congr_left fun i _ => ?_
      have hidx : cursor + bpr + i * bpr + (bpr - 2)
          = cursor + Nat.succ i * bpr + (bpr - 2) := by
        rw [Nat.succ_mul]
        omega
      simp only [Function.comp]
      rw [hidx]
    · have h0 : cursor + 0 * bpr + (bpr - 2) = cursor + (bpr - 2) := by omega
      rw [h0]
    · refine List.map_congr_left fun i _ => ?_
      have hidx : cursor + bpr + i * bpr + (bpr - 2)
          = cursor + Nat.succ i * bpr + (bpr - 2) := by
        rw [Nat.succ_mul]
        omega
      simp only [Function.comp]
      rw [hidx]

/-- Evaluation of the decode through `spo2LoadValues` when the header parses
and the payload is exactly `samples` records of `bpr ≥ 2` bytes. -/
lemma spo2LoadValues_spec (view : List Nat) (h samples bpr : Nat)
    (hhdr : spo2HeaderInfo view = some (h, samples))
    (hs : 0 < samples) (hbpr : 2 ≤ bpr)
    (hexact : (h + 228) + samples * bpr = view.length) :
    spo2LoadValues view =
      some ((List.range samples).map fun i =>
              (normPair (byteAt view ((h + 228) + i * bpr + (bpr - 2)))
                (byteAt view ((h + 228) + i * bpr + (bpr - 2) + 1))).1,
            (List.range samples).map fun i =>
              (normPair (byteAt view ((h + 228) + i * bpr + (bpr - 2)))
                (byteAt view ((h + 228) + i * bpr + (bpr - 2) + 1))).2) := by
  unfold spo2LoadValues
  rw [hhdr]
  have hdiv : (view.length - (h + 228)) / samples = bpr := by
    have hlen : view.length - (h + 228) = samples * bpr := by omega
    rw [hlen, Nat.mul_div_cancel_left _ hs]
  show some (spo2DecodeLoop view view.length ((view.length - (h + 228)) / samples)
      samples (h + 228)) = _
  rw [hdiv, spo2DecodeLoop_spec view view.length bpr hbpr samples (h + 228) (by omega)]


lemma spo2ValueAt (view : List Nat) (h samples bpr i : Nat)
    (hhdr : spo2HeaderInfo view = some (h, samples))
    (hs : 0 < samples) (hbpr : 2 ≤ bpr)
    (hexact : (h + 228) + samples * bpr = view.length)
    (hi : i < samples) :
    ∃ S P, spo2LoadValues view = some (S, P) ∧
      S[i]? = some (normPair (byteAt view ((h + 228) + i * bpr + (bpr - 2)))
        (byteAt view ((h + 228) + i * bpr + (bpr - 2) + 1))).1 ∧
      P[i]? = some (normPair (byteAt view ((h + 228) + i * bpr + (bpr - 2)))
        (byteAt view ((h + 228) + i * bpr + (bpr - 2) + 1))).2 := by
  refine ⟨_, _, spo2LoadValues_spec view h samples bpr hhdr hs hbpr hexact, ?_, ?_⟩
  · rw [List.getElem?_map, List.getElem?_range hi]
    rfl
  · rw [List.getElem?_map, List.getElem?_range hi]
    rfl

/-- C4 (amended): with the payload exactly `sampleCount` records of
`bytesPerRecord = (fileSize - (h+228)) / sampleCount ≥ 2` bytes, the decoder
reads record `i`'s SpO2 and pulse bytes at the LAST two bytes of the record,
offsets `(h+228) + i*bpr + (bpr-2)` and `(h+228) + i*bpr + (bpr-1)` (which are
bytes 0 and 1 only when `bpr = 2`), sentinel-normalized. -/
theorem spo2_record_byte_offsets (view : List Nat) (h samples bpr i : Nat)
    (hhdr : spo2HeaderInfo view = some (h, samples))
    (hs : 0 < samples) (hbpr : 2 ≤ bpr)
    (hexact : (h + 228) + samples * bpr = view.length)
    (hi : i < samples) :
    ∃ S P, spo2LoadValues view = some (S, P) ∧
      S[i]? = some (normPair (byteAt view ((h + 228) + i * bpr + (bpr - 2)))
        (byteAt view ((h + 228) + i * bpr + (bpr - 2) + 1))).1 ∧
      P[i]? = some (normPair (byteAt view ((h + 228) + i * bpr + (bpr - 2)))
        (byteAt view ((h + 228) + i * bpr + (bpr - 2) + 1))).2 :=
  spo2ValueAt view h samples bpr i hhdr hs hbpr hexact hi

def c4View : List Nat :=
  List.replicate 224 0 ++ [2, 0, 0, 0] ++ [10, 20, 99, 88, 11, 21, 77, 66]

set_option maxRecDepth 40000 in
/-- Counterexample to C4 as stated: with 4-byte records, record 0's decoded
SpO2 value is the byte at offset `(h+228) + 0*4 + 2` (here 99), not the byte
at offset `(h+228) + 0*4 + 0` (here 10): the loop skips `bpr - 2` bytes
BEFORE reading, so byte 0 of a wide record is never the value read. -/
theorem spo2_record_byte_offsets_counterexample :
    spo2HeaderInfo c4View = some (0, 2) ∧
    spo2LoadValues c4View = some ([99, 77], [88, 66]) ∧
    byteAt c4View (0 + 228 + 0 * 4 + 0) = 10 ∧
    byteAt c4View (0 + 228 + 0 * 4 + 1) = 20 ∧
    (99 : Nat) ≠ 10 := by
  refine ⟨by decide, by decide, by decide, by decide, by decide⟩

set_option maxRecDepth 40000 in
/-- Witness for the amended C4 on the same concrete file. -/
theorem spo2_record_byte_offsets_witness :
    ∃ S P, spo2LoadValues c4View = some (S, P) ∧
      S[0]? = some (normPair (byteAt c4View ((0 + 228) + 0 * 4 + (4 - 2)))
        (byteAt c4View ((0 + 228) + 0 * 4 + (4 - 2) + 1))).1 ∧
      P[0]? = some (normPair (byteAt c4View ((0 + 228) + 0 * 4 + (4 - 2)))
        (byteAt c4View ((0 + 228) + 0 * 4 + (4 - 2) + 1))).2 :=
  spo2_record_byte_offsets c4View 0 2 4 0 (by decide) (by decide) (by decide)
    (by decide) (by decide)

/-- C8: if the two bytes read for sample `i` are `0x7F` and `0xFF`, the
decoded SpO2 and pulse values at `i` are both 0; for any other byte pair the
decoded values equal the raw bytes. -/
theorem spo2_sentinel_normalization (view : List Nat) (h samples bpr i : Nat)
    (hhdr : spo2HeaderInfo view = some (h, samples))
    (hs : 0 < samples) (hbpr : 2 ≤ bpr)
    (hexact : (h + 228) + samples * bpr = view.length)
    (hi : i < samples) :
    ∃ S P, spo2LoadValues view = some (S, P) ∧
      ((byteAt view ((h + 228) + i * bpr + (bpr - 2)) = 127 ∧
        byteAt view ((h + 228) + i * bpr + (bpr - 2) + 1) = 255) →
          S[i]? = some 0 ∧ P[i]? = some 0) ∧
      (¬ (byteAt view ((h + 228) + i * bpr + (bpr - 2)) = 127 ∧
          byteAt view ((h + 228) + i * bpr + (bpr - 2) + 1) = 255) →
          S[i]? = some (byteAt view ((h + 228) + i * bpr + (bpr - 2))) ∧
          P[i]? = some (byteAt view ((h + 228) + i * bpr + (bpr - 2) + 1))) := by
  obtain ⟨S, P, h1, h2, h3⟩ := spo2ValueAt view h samples bpr i hhdr hs hbpr hexact hi
  refine ⟨S, P, h1, ?_, ?_⟩
  · intro hsen
    have hnp : normPair (byteAt view ((h + 228) + i * bpr + (bpr - 2)))
        (byteAt view ((h + 228) + i * bpr + (bpr - 2) + 1)) = (0, 0) := by
      unfold normPair
      rw [if_pos hsen]
    rw [hnp] at h2 h3
    exact ⟨h2, h3⟩
  · intro hsen
    have hnp : normPair (byteAt view ((h + 228) + i * bpr + (bpr - 2)))
        (byteAt view ((h + 228) + i * bpr + (bpr - 2) + 1))
        = (byteAt view ((h + 228) + i * bpr + (bpr - 2)),
           byteAt view ((h + 228) + i * bpr + (bpr - 2) + 1)) := by
      unfold normPair
      rw [if_neg hsen]
    rw [hnp] at h2 h3
    exact ⟨h2, h3⟩

def c8View : List Nat :=
  List.replicate 224 0 ++ [1, 0, 0, 0] ++ [127, 255]

set_option maxRecDepth 40000 in
/-- Witness for C8: the sentinel pair `(0x7F, 0xFF)` decodes to `(0, 0)`. -/
theorem spo2_sentinel_normalization_witness :
    ∃ S P, spo2LoadValues c8View = some (S, P) ∧
      S[0]? = some 0 ∧ P[0]? = some 0 := by
  obtain ⟨S, P, h1, h2, _⟩ := spo2_sentinel_normalization c8View 0 1 2 0 (by decide)
    (by decide) (by decide) (by decide) (by decide)
  exact ⟨S, P, h1, h2 (by decide)⟩

lemma rmLoadFile_error_of_bad (sessionEnd : Int) (d : RMDecodedFile)
    (hbad : d.header.recordDuration ≠ 60 ∧ d.header.recordDuration ≠ 0) :
    ∃ m, rmLoadFile sessionEnd d = Except.error m := by
  have hcond : d.header.recordDuration ≠ rmRecordDuration ∧ d.header.recordDuration ≠ 0 := by
    unfold rmRecordDuration
    exact hbad
  exact ⟨_, by unfold rmLoadFile; rw [if_pos hcond]⟩

lemma rmLoadFile_ok_of_good (sessionEnd : Int) (d : RMDecodedFile)
    (hgood : d.header.recordDuration = 60 ∨ d.header.recordDuration = 0) :
    ∃ v, rmLoadFile sessionEnd d = Except.ok v := by
  have hnot : ¬ (d.header.recordDuration ≠ rmRecordDuration ∧ d.header.recordDuration ≠ 0) := by
    unfold rmRecordDuration
    tauto
  unfold rmLoadFile
  rw [if_neg hnot]
  by_cases hc : d.header.dataRecords ≤ 0
  · rw [if_pos hc]
    exact ⟨_, rfl⟩
  · rw [if_neg hc]
    exact ⟨_, rfl⟩

lemma rmLoadFile_skip (sessionEnd : Int) (d : RMDecodedFile)
    (hgood : d.header.recordDuration = 60 ∨ d.header.recordDuration = 0)
    (hc : d.header.dataRecords ≤ 0) :
    rmLoadFile sessionEnd d = Except.ok none := by
  have hnot : ¬ (d.header.recordDuration ≠ rmRecordDuration ∧ d.header.recordDuration ≠ 0) := by
    unfold rmRecordDuration
    tauto
  unfold rmLoadFile
  rw [if_neg hnot, if_pos hc]

lemma rmBuildTree_error_of_bad (sessionEnd : Int) (l : List RMDecodedFile)
    (hbad : ∃ d ∈ l, d.header.recordDuration ≠ 60 ∧ d.header.recordDuration ≠ 0) :
    ∃ m, rmBuildTree sessionEnd l = Except.error m := by
  induction l with
  | nil => obtain ⟨d, hd, _⟩ := hbad; cases hd
  | cons x xs ih =>
    by_cases hx : x.header.recordDuration ≠ 60 ∧ x.header.recordDuration ≠ 0
    · obtain ⟨m, hm⟩ := rmLoadFile_error_of_bad sessionEnd x hx
      refine ⟨m, ?_⟩
      unfold rmBuildTree
      rw [hm]
    · have hgood : x.header.recordDuration = 60 ∨ x.header.recordDuration = 0 := by tauto
      have hxs : ∃ d ∈ xs, d.header.recordDuration ≠ 60 ∧ d.header.recordDuration ≠ 0 := by
        obtain ⟨d, hd, hb⟩ := hbad
        rcases List.mem_cons.mp hd with rfl | hdm
        · exact absurd hb hx
        · exact ⟨d, hdm, hb⟩
      obtain ⟨m, hm⟩ := ih hxs
      obtain ⟨v, hv⟩ := rmLoadFile_ok_of_good sessionEnd x hgood
      cases v with
      | none => exact ⟨m, by unfold rmBuildTree; rw [hv, hm]⟩
      | some ent => exact ⟨m, by unfold rmBuildTree; rw [hv, hm]⟩

lemma rmBuildTree_ok_of_good (sessionEnd : Int) (l : List RMDecodedFile)
    (hall : ∀ d ∈ l, d.header.recordDuration = 60 ∨ d.header.recordDuration = 0) :
    ∃ t, rmBuildTree sessionEnd l = Except.ok t := by
  induction l with
  | nil => exact ⟨[], rfl⟩
  | cons x xs ih =>
    obtain ⟨t, ht⟩ := ih fun d hd => hall d (List.mem_cons_of_mem x hd)
    obtain ⟨v, hv⟩ := rmLoadFile_ok_of_good sessionEnd x (hall x (List.mem_cons_self x xs))
    cases v with
    | none => exact ⟨t, by unfold rmBuildTree; rw [hv, ht]⟩
    | some ent => exact ⟨ent :: t, by unfold rmBuildTree; rw [hv, ht]⟩

/-- C6: `loadSession` fails with an error whenever some session file declares
a record duration that is neither the profile's fixed 60 seconds nor 0; when
every file declares exactly 60 or 0, the duration check passes and the session
is reconciled to a merged output. -/
theorem rmLoadSession_record_duration_check (sess : SessionR)
    (decoded : List RMDecodedFile) :
    ((∃ d ∈ decoded, d.header.recordDuration ≠ 60 ∧ d.header.recordDuration ≠ 0) →
      ∃ m, rmLoadSession sess decoded = Except.error m) ∧
    ((∀ d ∈ decoded, d.header.recordDuration = 60 ∨ d.header.recordDuration = 0) →
      ∃ out, rmLoadSession sess decoded = Except.ok out) := by
  constructor
  · intro hbad
    obtain ⟨m, hm⟩ := rmBuildTree_error_of_bad sess.endMs decoded hbad
    exact ⟨m, by unfold rmLoadSession; rw [hm]⟩
  · intro hall
    obtain ⟨t, ht⟩ := rmBuildTree_ok_of_good sess.endMs decoded hall
    exact ⟨_, by unfold rmLoadSession; rw [ht]⟩

def c6File : RMDecodedFile :=
  { header := { startTime := 0, dataRecords := 1, recordDuration := 60,
                signalCount := 0, signals := [], reserved := "" },
    values := [], rawAnnots := [], lastRecordOffset := 0 }

/-- Witness for C6: a session whose only file declares 60-second records is
accepted. -/
theorem rmLoadSession_record_duration_check_witness :
    ∃ out, rmLoadSession { startMs := 0, endMs := 60000 } [c6File] = Except.ok out :=
  (rmLoadSession_record_duration_check { startMs := 0, endMs := 60000 } [c6File]).2
    (by decide)

lemma rmBuildTree_skip_append (sessionEnd : Int) (xs ys : List RMDecodedFile)
    (bad : RMDecodedFile)
    (hgood : bad.header.recordDuration = 60 ∨ bad.header.recordDuration = 0)
    (hc : bad.header.dataRecords ≤ 0) :
    rmBuildTree sessionEnd (xs ++ bad :: ys) = rmBuildTree sessionEnd (xs ++ ys) := by
  induction xs with
  | nil =>
    show rmBuildTree sessionEnd (bad :: ys) = rmBuildTree sessionEnd ys
    simp only [rmBuildTree, rmLoadFile_skip sessionEnd bad hgood hc]
  | cons x xs ih =>
    show rmBuildTree sessionEnd (x :: (xs ++ bad :: ys))
        = rmBuildTree sessionEnd (x :: (xs ++ ys))
    unfold rmBuildTree
    cases rmLoadFile sessionEnd x with
    | error m => rfl
    | ok v =>
      cases v with
      | none => exact ih
      | some ent => rw [ih]

/-- C7 (amended): a file declaring a non-positive record count contributes no
session in discovery and, provided it passes the record-duration check that
`loadSession` performs first, no file record in reconciliation; in both cases
the remaining files are processed as if it were absent. -/
theorem rm_skip_nonpositive_record_count (xs ys : List RMDecodedFile)
    (bad : RMDecodedFile) (sess : SessionR)
    (hc : bad.header.dataRecords ≤ 0) :
    (rmSessions (xs ++ bad :: ys) = rmSessions (xs ++ ys)) ∧
    ((bad.header.recordDuration = 60 ∨ bad.header.recordDuration = 0) →
      rmLoadSession sess (xs ++ bad :: ys) = rmLoadSession sess (xs ++ ys)) := by
  constructor
  · unfold rmSessions
    rw [List.filterMap_append, List.filterMap_append]
    congr 1
    rw [List.filterMap_cons]
    have hnone : (if bad.header.dataRecords ≤ 0 then none
        else some { startMs := bad.header.startTime,
                    endMs := bad.header.startTime
                      + (bad.lastRecordOffset + bad.header.recordDuration) * 1000
                    : SessionR }) = none := if_pos hc
    rw [hnone]
  · intro hgood
    unfold rmLoadSession
    rw [rmBuildTree_skip_append sess.endMs xs ys bad hgood hc]

def c7SkipFile : RMDecodedFile :=
  { header := { startTime := 0, dataRecords := 0, recordDuration := 60,
                signalCount := 0, signals := [], reserved := "" },
    values := [], rawAnnots := [], lastRecordOffset := 0 }

/-- Witness for the amended C7: a 60-second-record file with record count 0 is
skipped by both discovery and reconciliation. -/
theorem rm_skip_nonpositive_record_count_witness :
    (rmSessions ([] ++ c7SkipFile :: []) = rmSessions ([] ++ [])) ∧
    rmLoadSession { startMs := 0, endMs := 0 } ([] ++ c7SkipFile :: [])
      = rmLoadSession { startMs := 0, endMs := 0 } ([] ++ []) :=
  ⟨(rm_skip_nonpositive_record_count [] [] c7SkipFile { startMs := 0, endMs := 0 }
      (by decide)).1,
   (rm_skip_nonpositive_record_count [] [] c7SkipFile { startMs := 0, endMs := 0 }
      (by decide)).2 (Or.inl rfl)⟩

def c7BadFile : RMDecodedFile :=
  { header := { startTime := 0, dataRecords := 0, recordDuration := 45,
                signalCount := 0, signals := [], reserved := "" },
    values := [], rawAnnots := [], lastRecordOffset := 0 }

/-- Counterexample to C7 as stated: a file with a non-positive record count
whose declared record duration is 45 seconds makes `loadSession` throw — the
duration check runs before the record-count skip, so such a file is not
"skipped without raising an error". -/
theorem rm_skip_nonpositive_record_count_counterexample :
    c7BadFile.header.dataRecords ≤ 0 ∧
    rmLoadSession { startMs := 0, endMs := 0 } [c7BadFile]
      = Except.error ("Unexpected record duration: 45 seconds. Expected 60 seconds.") := by
  refine ⟨by decide, by decide⟩

/-- The selection the spec describes: the first element of the group attaining
the maximal `samplesPerRecord` (compared with the stable-sort-then-head
selection the source performs). -/
def firstBest : List SigInfo → Option SigInfo
  | [] => none
  | x :: xs =>
    match firstBest xs with
    | none => some x
    | some b =>
      if x.signal.samplesPerRecord < b.signal.samplesPerRecord then some b else some x

lemma insertDesc_head (x : SigInfo) (s : List SigInfo) :
    (insertDesc x s).head? = some (match s.head? with
      | none => x
      | some y => if y.signal.samplesPerRecord ≤ x.signal.samplesPerRecord then x
                  else y) := by
  cases s with
  | nil => rfl
  | cons y ys =>
    show (if y.signal.samplesPerRecord ≤ x.signal.samplesPerRecord then x :: y :: ys
          else y :: insertDesc x ys).head? = some (if y.signal.samplesPerRecord
            ≤ x.signal.samplesPerRecord then x else y)
    by_cases h : y.signal.samplesPerRecord ≤ x.signal.samplesPerRecord
    · rw [if_pos h, if_pos h]
      rfl
    · rw [if_neg h, if_neg h]
      rfl


lemma sortBySprDesc_head (l : List SigInfo) :
    (sortBySprDesc l).head? = firstBest l := by
  induction l with
  | nil => rfl
  | cons x xs ih =>
    have h1 : sortBySprDesc (x :: xs) = insertDesc x (sortBySprDesc xs) := rfl
    rw [h1, insertDesc_head]
    cases hh : (sortBySprDesc xs).head? with
    | none =>
      have hfb : firstBest xs = none := by rw [← ih, hh]
      simp only [firstBest, hfb]
    | some y =>
      have hfb : firstBest xs = some y := by rw [← ih, hh]
      simp only [firstBest, hfb]
      by_cases hc : y.signal.samplesPerRecord ≤ x.signal.samplesPerRecord
      · rw [if_pos hc, if_neg (by omega)]
      · rw [if_neg hc, if_pos (by omega)]

lemma firstBest_isSome (x : SigInfo) (xs : List SigInfo) :
    ∃ b, firstBest (x :: xs) = some b := by
  cases hfb : firstBest xs with
  | none => exact ⟨x, by simp only [firstBest, hfb]⟩
  | some c =>
    by_cases h : x.signal.samplesPerRecord < c.signal.samplesPerRecord
    · exact ⟨c, by simp only [firstBest, hfb]; rw [if_pos h]⟩
    · exact ⟨x, by simp only [firstBest, hfb]; rw [if_neg h]⟩

lemma firstBest_spec (l : List SigInfo) (b : SigInfo) (h : firstBest l = some b) :
    ∃ l1 l2, l = l1 ++ b :: l2 ∧
      (∀ x ∈ l1, x.signal.samplesPerRecord < b.signal.samplesPerRecord) ∧
      (∀ x ∈ l, x.signal.samplesPerRecord ≤ b.signal.samplesPerRecord) := by
  induction l generalizing b with
  | nil => cases h
  | cons x xs ih =>
    cases hfb : firstBest xs with
    | none =>
      have hx : firstBest (x :: xs) = some x := by simp only [firstBest, hfb]
      rw [hx] at h
      injection h with h2
      subst h2
      have hxs : xs = [] := by
        cases xs with
        | nil => rfl
        | cons y ys =>
          obtain ⟨c, hc⟩ := firstBest_isSome y ys
          rw [hc] at hfb
          cases hfb
      subst hxs
      refine ⟨[], [], rfl, (by intro y hy; cases hy), ?_⟩
      intro y hy
      rcases List.mem_cons.mp hy with rfl | hy2
      · exact le_refl _
      · cases hy2
    | some c =>
      have hx : firstBest (x :: xs) =
          if x.signal.samplesPerRecord < c.signal.samplesPerRecord
          then some c else some x := by simp only [firstBest, hfb]
      rw [hx] at h
      by_cases hlt : x.signal.samplesPerRecord < c.signal.samplesPerRecord
      · rw [if_pos hlt] at h
        injection h with h2
        subst h2
        obtain ⟨l1, l2, heq, hl1, hall⟩ := ih c hfb
        refine ⟨x :: l1, l2, (by rw [heq, List.cons_append]), ?_, ?_⟩
        · intro y hy
          rcases List.mem_cons.mp hy with rfl | hy2
          · exact hlt
          · exact hl1 y hy2
        · intro y hy
          rcases List.mem_cons.mp hy with rfl | hy2
          · exact le_of_lt hlt
          · exact hall y hy2
      · rw [if_neg hlt] at h
        injection h with h2
        subst h2
        obtain ⟨l1, l2, heq, hl1, hall⟩ := ih c hfb
        refine ⟨[], xs, rfl, (by intro y hy; cases hy), ?_⟩
        intro y hy
        rcases List.mem_cons.mp hy with rfl | hy2
        · exact le_refl _
        · exact le_trans (hall y hy2) (by omega)

lemma mem_dedupKeysAux (l : List String) :
    ∀ (seen : List String) (a : String),
      a ∈ dedupKeysAux seen l ↔ (a ∈ l ∧ a ∉ seen) := by
  induction l with
  | nil => intro seen a; simp [dedupKeysAux]
  | cons x xs ih =>
    intro seen a
    show a ∈ (if x ∈ seen then dedupKeysAux seen xs
              else x :: dedupKeysAux (x :: seen) xs) ↔ _
    by_cases hx : x ∈ seen
    · rw [if_pos hx, ih seen a]
      simp only [List.mem_cons]
      constructor
      · rintro ⟨h1, h2⟩
        exact ⟨Or.inr h1, h2⟩
      · rintro ⟨h1, h2⟩
        rcases h1 with rfl | h1
        · exact absurd hx h2
        · exact ⟨h1, h2⟩
    · rw [if_neg hx]
      simp only [List.mem_cons, ih (x :: seen) a, List.mem_cons]
      constructor
      · rintro (rfl | ⟨h1, h2⟩)
        · exact ⟨Or.inl rfl, hx⟩
        · exact ⟨Or.inr h1, fun hc => h2 (Or.inr hc)⟩
      · rintro ⟨h1, h2⟩
        rcases h1 with rfl | h1
        · exact Or.inl rfl
        · by_cases hax : a = x
          · exact Or.inl hax
          · exact Or.inr ⟨h1, fun hc => (hc.elim hax h2)⟩

lemma nodup_dedupKeysAux (l : List String) :
    ∀ seen, (dedupKeysAux seen l).Nodup := by
  induction l with
  | nil => intro seen; exact List.nodup_nil
  | cons x xs ih =>
    intro seen
    show (if x ∈ seen then dedupKeysAux seen xs
          else x :: dedupKeysAux (x :: seen) xs).Nodup
    by_cases hx : x ∈ seen
    · rw [if_pos hx]
      exact ih seen
    · rw [if_neg hx]
      refine List.nodup_cons.mpr ⟨?_, ih (x :: seen)⟩
      intro hmem
      rw [mem_dedupKeysAux] at hmem
      exact hmem.2 (List.mem_cons_self x seen)

lemma mem_labelKeys (files : List EDFFileR) (lab : String) :
    lab ∈ labelKeys files ↔ ∃ info ∈ allSigInfos files, info.signal.label = lab := by
  unfold labelKeys dedupKeys
  rw [mem_dedupKeysAux]
  simp [List.mem_map]

lemma nodup_labelKeys (files : List EDFFileR) : (labelKeys files).Nodup :=
  nodup_dedupKeysAux _ []

lemma mem_groupFor (files : List EDFFileR) (lab : String) (info : SigInfo) :
    info ∈ groupFor files lab ↔ info ∈ allSigInfos files ∧ info.signal.label = lab := by
  unfold groupFor
  rw [List.mem_filter]
  simp

lemma pickFor_eq_firstBest (files : List EDFFileR) (lab : String) :
    pickFor files lab = firstBest (groupFor files lab) := by
  unfold pickFor
  exact sortBySprDesc_head _

lemma pickFor_some (files : List EDFFileR) (lab : String)
    (hlab : lab ∈ labelKeys files) :
    ∃ b, pickFor files lab = some b ∧ b.signal.label = lab := by
  obtain ⟨info, hinfo, hlabel⟩ := (mem_labelKeys files lab).mp hlab
  have hg : info ∈ groupFor files lab := (mem_groupFor files lab info).mpr ⟨hinfo, hlabel⟩
  rw [pickFor_eq_firstBest]
  cases hgr : groupFor files lab with
  | nil => rw [hgr] at hg; cases hg
  | cons x xs =>
    obtain ⟨b, hb⟩ := firstBest_isSome x xs
    refine ⟨b, hb, ?_⟩
    obtain ⟨l1, l2, heq, _, _⟩ := firstBest_spec _ _ hb
    have hbmem : b ∈ groupFor files lab := by
      rw [hgr, heq]
      exact List.mem_append.mpr (Or.inr (List.mem_cons_self _ _))
    exact ((mem_groupFor files lab b).mp hbmem).2

lemma countP_picks (files : List EDFFileR) (lab : String) (keys : List String)
    (hall : ∀ k ∈ keys, ∃ b, pickFor files k = some b ∧ b.signal.label = k) :
    ((keys.filterMap (pickFor files)).map (fun best => best.signal)).countP
      (fun s => s.label == lab) = keys.count lab := by
  induction keys with
  | nil => rfl
  | cons k ks ih =>
    obtain ⟨b, hb, hlabel⟩ := hall k (List.mem_cons_self _ _)
    rw [List.filterMap_cons, hb]
    show ((b :: ks.filterMap (pickFor files)).map (fun best => best.signal)).countP
      (fun s => s.label == lab) = (k :: ks).count lab
    rw [List.map_cons, List.countP_cons,
      ih (fun k2 hk2 => hall k2 (List.mem_cons_of_mem _ hk2)), List.count_cons, hlabel]

/-- The `signals` component of `mergeSignals`, definitionally. -/
lemma mergeSignals_signals_eq (startT endT : Int) (files : List EDFFileR) :
    (mergeSignals startT endT files).signals
      = ((labelKeys files).filterMap (pickFor files)).map (fun best => best.signal) := rfl

/-- C2: for every label present in some candidate, `mergeSignals` outputs
exactly one channel with that label; it is the group entry with the highest
`samplesPerRecord`, and when several entries tie, the first one in traversal
order (file insertion order, then signal index order) wins: every earlier
group entry has a strictly smaller `samplesPerRecord`. -/
theorem mergeSignals_best_channel (startT endT : Int) (files : List EDFFileR)
    (lab : String) (hlab : lab ∈ labelKeys files) :
    ((mergeSignals startT endT files).signals.countP (fun s => s.label == lab) = 1) ∧
    ∃ b l1 l2, pickFor files lab = some b ∧
      groupFor files lab = l1 ++ b :: l2 ∧
      (∀ x ∈ l1, x.signal.samplesPerRecord < b.signal.samplesPerRecord) ∧
      (∀ x ∈ groupFor files lab,
        x.signal.samplesPerRecord ≤ b.signal.samplesPerRecord) ∧
      b.signal ∈ (mergeSignals startT endT files).signals ∧
      ∀ s ∈ (mergeSignals startT endT files).signals, s.label = lab → s = b.signal := by
  have hpickall : ∀ k ∈ labelKeys files,
      ∃ b, pickFor files k = some b ∧ b.signal.label = k :=
    fun k hk => pickFor_some files k hk
  constructor
  · rw [mergeSignals_signals_eq, countP_picks files lab (labelKeys files) hpickall]
    exact List.count_eq_one_of_mem (nodup_labelKeys files) hlab
  · obtain ⟨b, hb, hblab⟩ := pickFor_some files lab hlab
    have hfb : firstBest (groupFor files lab) = some b := by
      rw [← pickFor_eq_firstBest]
      exact hb
    obtain ⟨l1, l2, heq, hl1, hall⟩ := firstBest_spec _ _ hfb
    refine ⟨b, l1, l2, hb, heq, hl1, hall, ?_, ?_⟩
    · rw [mergeSignals_signals_eq]
      exact List.mem_map.mpr ⟨b, List.mem_filterMap.mpr ⟨lab, hlab, hb⟩, rfl⟩
    · intro s hs hslab
      rw [mergeSignals_signals_eq] at hs
      obtain ⟨b2, hb2, rfl⟩ := List.mem_map.mp hs
      obtain ⟨k, hk, hpick⟩ := List.mem_filterMap.mp hb2
      obtain ⟨b3, hb3, hb3lab⟩ := hpickall k hk
      rw [hpick] at hb3
      injection hb3 with hbb
      subst hbb
      have hkl : k = lab := by rw [← hb3lab, hslab]
      subst hkl
      rw [hpick] at hb
      injection hb with hbb2
      rw [hbb2]

def c2SigBig : EDFSignal :=
  { label := "Flow", transducerType := "", physicalDimension := "L/s",
    physicalMin := -2, physicalMax := 3, digitalMin := -1000, digitalMax := 1500,
    prefiltering := "", samplesPerRecord := 1500, reserved := some ("") }

def c2SigSmall : EDFSignal :=
  { label := "Flow", transducerType := "", physicalDimension := "L/s",
    physicalMin := -2, physicalMax := 3, digitalMin := -1000, digitalMax := 1500,
    prefiltering := "", samplesPerRecord := 30, reserved := some ("") }

def c2FileA : EDFFileR :=
  { header := { startTime := 0, dataRecords := 1, recordDuration := 60,
                signalCount := 1, signals := [c2SigBig], reserved := "" },
    values := [[]], annots := [] }

def c2FileB : EDFFileR :=
  { header := { startTime := 0, dataRecords := 1, recordDuration := 60,
                signalCount := 1, signals := [c2SigSmall], reserved := "" },
    values := [[]], annots := [] }

/-- Witness for C2: with two same-label candidates at 1500 and 30 samples per
record, the merged output has exactly one such channel and it is the 1500
one. -/
theorem mergeSignals_best_channel_witness :
    ((mergeSignals 0 60000 [c2FileA, c2FileB]).signals.countP
      (fun s => s.label == "Flow") = 1) ∧
    (mergeSignals 0 60000 [c2FileA, c2FileB]).signals = [c2SigBig] :=
  ⟨(mergeSignals_best_channel 0 60000 [c2FileA, c2FileB] "Flow" (by decide)).1,
   by decide⟩
